import Mathlib

/-
Shallow embedding of the `mig` migration library (mig.go, util.go).

Modelling conventions:
* `int64` values (versions) are `Int`; `strconv.ParseInt(_, 10, 64)` range
  checks are modelled explicitly with `maxInt64`.
* A migration action (`MigrationFunc`) is modelled by its observable trace:
  executing the action for version `v` in direction `d` appends `(v, d)` to a
  `run` log (exactly what the repository's test harness records in its
  `migrations_run` table), and fails iff an oracle `Env.fails v d` yields a
  cause string.  This mirrors the test helper `newMigrationFunc`, which first
  inserts its trace row and then returns the configured error.
* The `__version` table is a list of `{version, updated_at}` records; the
  timestamps `time.Now().Unix()` are modelled by a strictly increasing clock
  carried in the state, so successive inserts get distinct timestamps.
* `database/sql` transactions: `runTx` applies the unit of work to a copy of
  the state; on rollback or failed commit the pre-transaction state is kept,
  on successful commit the worked state replaces it.
* Named Go result parameters mutated by a closure: in
  `return newVersion, fn(db)` (and the `runTx` variants) the Go compiler
  hoists the call, so the returned `newVersion` is the value after `fn` ran;
  the repository's own tests (TestUp, TestDown, TestToVersion) pin this
  behaviour, and the model threads the mutated value through explicitly.
* Go panics in `Register` are modelled as `Except` errors; `fmt.Errorf`
  error values are modelled structurally by the `MigErr` / `RegErr`
  inductives, keeping exactly the data each format string interpolates.
-/

namespace Mig

/-- Direction of a migration action: the `up` or the `down` member of a
registered migration pair. -/
inductive Dir
  | up
  | down
deriving DecidableEq, Repr

/-- A registered migration: the `migration` struct of mig.go.  The two
`MigrationFunc` fields are modelled behaviourally (see `Env`), so only the
version and the provenance file name are carried. -/
structure Migration where
  version : Int
  file : List Char
deriving DecidableEq, Repr

/-- A row of the `__version` table: `{version bigint, updated_at bigint}`. -/
structure VRecord where
  version : Int
  updated_at : Nat
deriving DecidableEq, Repr

/-- Observable database state: the `__version` table contents, the trace of
executed migration actions, and a clock supplying strictly increasing
`updated_at` timestamps. -/
structure DBState where
  table : List VRecord
  run : List (Int × Dir)
  clock : Nat
deriving DecidableEq, Repr

/-- Behaviour oracle for one execution: whether each step's action fails
(and with which cause), and whether `Begin`, `Rollback` and `Commit` on the
underlying connection fail. -/
structure Env where
  fails : Int → Dir → Option String
  beginFails : Bool
  rollbackFails : Bool
  commitFails : Bool

/-- Execution-time errors of mig.go, one constructor per `fmt.Errorf` shape:
`noWork` is "no transactions to run", `notFound v` is "unable to find a
migration with version v", `stepFailed d v cause` is "error applying
migration up/down v: cause", `beginFailed` / `rollbackFailed` /
`commitFailed` come from `runTx`, and `txRolledBack e` is "transaction was
rolled back: e" wrapping the unit-of-work error.  Note `rollbackFailed`
carries no payload: the Go message "unable to rollback: %s" interpolates the
rollback error only, dropping the original step error. -/
inductive MigErr
  | noWork
  | notFound (v : Int)
  | stepFailed (d : Dir) (v : Int) (cause : String)
  | beginFailed
  | rollbackFailed
  | commitFailed
  | txRolledBack (e : MigErr)
deriving DecidableEq, Repr

/-- SetVersion appends `{version := v, updated_at := now}` to the version
table (mig.go `SetVersion`); the model's clock stands for `time.Now().Unix()`
and advances past every timestamp already used. -/
def SetVersion (s : DBState) (v : Int) : DBState :=
  { s with table := s.table ++ [⟨v, s.clock⟩], clock := s.clock + 1 }

/-- Running one migration action records its trace row, mirroring the
observable effect of a `MigrationFunc` on the database. -/
def logEffect (s : DBState) (v : Int) (d : Dir) : DBState :=
  { s with run := s.run ++ [(v, d)] }

/-- Comparison used to model `ORDER BY updated_at DESC`: `a` sorts no later
than `b` when its timestamp is at least `b`'s. -/
def recGE (a b : VRecord) : Prop := b.updated_at ≤ a.updated_at

instance : DecidableRel recGE := fun a b =>
  inferInstanceAs (Decidable (b.updated_at ≤ a.updated_at))

instance : IsTotal VRecord recGE := ⟨fun a b => le_total b.updated_at a.updated_at⟩

instance : IsTrans VRecord recGE := ⟨fun _ _ _ h h' => le_trans h' h⟩

/-- CurrentVersion (mig.go): `SELECT version FROM __version ORDER BY
updated_at DESC` scanned with `QueryRow`, i.e. the version of the first row
of the timestamp-descending ordering, and `0` on `sql.ErrNoRows` (empty
table).  Table creation by `setup` is idempotent and not observable here. -/
def CurrentVersion (s : DBState) : Int :=
  match List.insertionSort recGE s.table with
  | [] => 0
  | r :: _ => r.version

/-- Ordering relation of `byVersion` (mig.go): migrations compare by
version. -/
def migLE (a b : Migration) : Prop := a.version ≤ b.version

instance : DecidableRel migLE := fun a b =>
  inferInstanceAs (Decidable (a.version ≤ b.version))

instance : IsTotal Migration migLE := ⟨fun a b => le_total a.version b.version⟩

instance : IsTrans Migration migLE := ⟨fun _ _ _ h h' => le_trans h h'⟩

/-- sortedMigrations (mig.go): a copy of the registry stably sorted ascending
by version (`sort.Stable(byVersion(m))`). -/
def sortedMigrations (migs : List Migration) : List Migration :=
  List.insertionSort migLE migs

/-- Largest `int64` value, `math.MaxInt64`. -/
def maxInt64 : Int := 2 ^ 63 - 1

/-- Loop body shared by `upTo` and `downTo` (the `fn` closure): walk the
pending migrations in order, set the `newVersion` frontier to the step's
version, run the step's action, stop with a step error on failure, and after
the loop persist the frontier with `SetVersion`.  The `Int` argument threads
the Go named result `newVersion`. -/
def runSteps (env : Env) (d : Dir) : List Migration → DBState → Int → DBState × Int × Option MigErr
  | [], s, nv => (SetVersion s nv, nv, none)
  | m :: rest, s, _ =>
    let s' := logEffect s m.version d
    match env.fails m.version d with
    | some cause => (s', m.version, some (.stepFailed d m.version cause))
    | none => runSteps env d rest s' m.version

/-- runTx (mig.go): begin a transaction, run `fn` against it, roll back on
failure (a rollback failure replaces the unit-of-work error), otherwise
commit.  The state reverts to `s` unless the commit succeeds; the threaded
`newVersion` value survives regardless, as it is a Go local of the caller. -/
def runTx (env : Env) (s : DBState) (nv0 : Int)
    (fn : DBState → Int → DBState × Int × Option MigErr) : DBState × Int × Option MigErr :=
  if env.beginFails then (s, nv0, some .beginFailed)
  else
    let r := fn s nv0
    match r.2.2 with
    | some e =>
      if env.rollbackFails then (s, r.2.1, some .rollbackFailed)
      else (s, r.2.1, some (.txRolledBack e))
    | none =>
      if env.commitFails then (s, r.2.1, some .commitFailed)
      else (r.1, r.2.1, none)

/-- Pending set of `upTo`: sorted migrations with
`m.version > oldVersion && m.version <= target`, in ascending order. -/
def pendingUp (migs : List Migration) (oldVersion target : Int) : List Migration :=
  (sortedMigrations migs).filter
    (fun m => decide (oldVersion < m.version) && decide (m.version ≤ target))

/-- Pending set of `downTo`: the sorted migrations are scanned from the top,
keeping `version <= oldVersion && version > target`, so the pending list is
the descending order. -/
def pendingDown (migs : List Migration) (oldVersion target : Int) : List Migration :=
  ((sortedMigrations migs).filter
    (fun m => decide (m.version ≤ oldVersion) && decide (target < m.version))).reverse

/-- upTo (mig.go): select the ascending pending set, fail with the "no
transactions to run" error when it is empty, otherwise run the unit of work
directly or under `runTx`, returning the threaded `newVersion`. -/
def upTo (env : Env) (migs : List Migration) (tx : Bool) (oldVersion target : Int)
    (s : DBState) : DBState × Int × Option MigErr :=
  let pending := pendingUp migs oldVersion target
  if pending.isEmpty then (s, 0, some .noWork)
  else if tx then runTx env s 0 (runSteps env .up pending)
  else runSteps env .up pending s 0

/-- downTo (mig.go): select the descending pending set, fail with the "no
transactions to run" error when it is empty (returning `newVersion = 0`, not
`-1`: the early return precedes the subtraction), otherwise run the unit of
work and return `newVersion - 1`. -/
def downTo (env : Env) (migs : List Migration) (tx : Bool) (oldVersion target : Int)
    (s : DBState) : DBState × Int × Option MigErr :=
  let pending := pendingDown migs oldVersion target
  if pending.isEmpty then (s, 0, some .noWork)
  else
    let r := if tx then runTx env s 0 (runSteps env .down pending)
             else runSteps env .down pending s 0
    (r.1, r.2.1 - 1, r.2.2)

/-- Up (mig.go): resolve the current version and apply everything above it,
with `math.MaxInt64` as the target.  Result is
`(state, oldVersion, newVersion, error)`. -/
def Up (env : Env) (migs : List Migration) (tx : Bool) (s : DBState) :
    DBState × Int × Int × Option MigErr :=
  let old := CurrentVersion s
  let r := upTo env migs tx old maxInt64 s
  (r.1, old, r.2.1, r.2.2)

/-- Down (mig.go): resolve the current version `old` and roll back with
target `old - 1`, i.e. exactly the step at `old` when it exists. -/
def Down (env : Env) (migs : List Migration) (tx : Bool) (s : DBState) :
    DBState × Int × Int × Option MigErr :=
  let old := CurrentVersion s
  let r := downTo env migs tx old (old - 1) s
  (r.1, old, r.2.1, r.2.2)

/-- ToVersion (mig.go): resolve `old`; if `old == v` return `(v, v, nil)`
immediately (before any registry lookup); otherwise require some registered
migration to carry version `v`, returning `(0, 0, notFound)` when none does;
otherwise delegate to `upTo` or `downTo` by direction. -/
def ToVersion (env : Env) (migs : List Migration) (tx : Bool) (v : Int) (s : DBState) :
    DBState × Int × Int × Option MigErr :=
  let old := CurrentVersion s
  if old = v then (s, v, v, none)
  else if !(migs.any (fun m => decide (m.version = v))) then (s, 0, 0, some (.notFound v))
  else if old < v then
    let r := upTo env migs tx old v s
    (r.1, old, r.2.1, r.2.2)
  else
    let r := downTo env migs tx old v s
    (r.1, old, r.2.1, r.2.2)

/-- Registration-time panics of `Register` and `versionFromFile`, one
constructor per panic message. -/
inductive RegErr
  | nilMigration
  | notGoFile (file : List Char)
  | badName (file : List Char)
  | invalidVersion (v : Int) (file : List Char)
  | duplicate (v : Int) (file : List Char)
deriving DecidableEq, Repr

/-- Value of a decimal digit character, `none` for anything else. -/
def digitVal (c : Char) : Option Nat :=
  if '0' ≤ c ∧ c ≤ '9' then some (c.toNat - 48) else none

/-- Decimal digit-string parser: at least one character, all digits. -/
def parseDigits (cs : List Char) : Option Nat :=
  match cs with
  | [] => none
  | _ =>
    cs.foldl
      (fun acc c =>
        match acc, digitVal c with
        | some n, some d => some (n * 10 + d)
        | _, _ => none)
      (some 0)

/-- Model of `strconv.ParseInt(s, 10, 64)`: optional sign, decimal digits,
value restricted to the `int64` range. -/
def parseInt64 (cs : List Char) : Option Int :=
  match cs with
  | '+' :: rest =>
    (parseDigits rest).bind (fun n => if (n : Int) ≤ maxInt64 then some (n : Int) else none)
  | '-' :: rest =>
    (parseDigits rest).bind (fun n => if (n : Int) ≤ 2 ^ 63 then some (-(n : Int)) else none)
  | _ =>
    (parseDigits cs).bind (fun n => if (n : Int) ≤ maxInt64 then some (n : Int) else none)

/-- Characters strictly before the first occurrence of `c`, or `none` when
`c` does not occur: models `strings.IndexRune` plus the slice `file[:idx]`. -/
def beforeChar (c : Char) : List Char → Option (List Char)
  | [] => none
  | x :: xs => if x = c then some [] else (beforeChar c xs).map (x :: ·)

/-- versionFromFile (mig.go): require the `.go` suffix, then parse the
characters before the first underscore as an `int64`; any other shape is the
"must be NUMBER_NAME.go" error. -/
def versionFromFile (file : List Char) : Except RegErr Int :=
  if file.reverse.take 3 = ['o', 'g', '.'] then
    match beforeChar '_' file with
    | some cs =>
      match parseInt64 cs with
      | some v => .ok v
      | none => .error (.badName file)
    | none => .error (.badName file)
  else .error (.notGoFile file)

/-- Model of `filepath.Base` for the paths produced by `runtime.Caller`: the
characters after the last slash. -/
def baseName (file : List Char) : List Char :=
  ((file.reverse.takeWhile (fun c => !(c = '/'))).reverse)

/-- Register (mig.go): panic when either function is nil; derive the version
from the calling file's base name; panic when it is negative (`v < 0` — note
the source does not reject `0` despite its message "must be bigger than 0");
panic on a duplicate version naming the previously registered file; append
the migration otherwise.  Panics are modelled as `Except.error`. -/
def Register (reg : List Migration) (upIsNil downIsNil : Bool) (file : List Char) :
    Except RegErr (List Migration) :=
  if upIsNil || downIsNil then .error .nilMigration
  else
    let base := baseName file
    match versionFromFile base with
    | .error e => .error e
    | .ok v =>
      if v < 0 then .error (.invalidVersion v base)
      else
        match reg.find? (fun m => decide (m.version = v)) with
        | some m => .error (.duplicate v m.file)
        | none => .ok (reg ++ [⟨v, base⟩])

/-- Trace rows produced by running the given migrations in the given
direction. -/
def effects (d : Dir) (l : List Migration) : List (Int × Dir) :=
  l.map (fun m => (m.version, d))

/-- Frontier version after walking `l`: the last migration's version, or the
initial `nv` when `l` is empty (the Go `newVersion` named result). -/
def lastVer (l : List Migration) (nv : Int) : Int :=
  l.foldl (fun _ m => m.version) nv

/-- State after appending trace rows. -/
def addRun (s : DBState) (l : List (Int × Dir)) : DBState :=
  { s with run := s.run ++ l }

/-! Helper lemmas about the unit of work, the version store and the sorted
registry view. -/

theorem addRun_nil (s : DBState) : addRun s [] = s := by
  simp [addRun]

theorem lastVer_cons (m : Migration) (rest : List Migration) (nv : Int) :
    lastVer (m :: rest) nv = lastVer rest m.version := rfl

theorem lastVer_map (l : List Migration) (nv : Int) :
    lastVer l nv = (l.map Migration.version).getLastD nv := by
  induction l generalizing nv with
  | nil => rfl
  | cons m rest ih =>
    rw [lastVer_cons, ih, List.map_cons, List.getLastD_cons]

theorem runSteps_ok (env : Env) (d : Dir) (l : List Migration) (s : DBState) (nv : Int)
    (h : ∀ m ∈ l, env.fails m.version d = none) :
    runSteps env d l s nv =
      (SetVersion (addRun s (effects d l)) (lastVer l nv), lastVer l nv, none) := by
  induction l generalizing s nv with
  | nil => simp [runSteps, addRun_nil, effects, lastVer]
  | cons m rest ih =>
    have hm : env.fails m.version d = none := h m (List.mem_cons_self m rest)
    have hrest : ∀ x ∈ rest, env.fails x.version d = none :=
      fun x hx => h x (List.mem_cons_of_mem m hx)
    rw [runSteps, hm, ih _ _ hrest, lastVer_cons]
    simp [logEffect, addRun, effects]

theorem runSteps_fail (env : Env) (d : Dir) (good : List Migration) (bad : Migration)
    (rest : List Migration) (cause : String) (s : DBState) (nv : Int)
    (hgood : ∀ m ∈ good, env.fails m.version d = none)
    (hbad : env.fails bad.version d = some cause) :
    runSteps env d (good ++ bad :: rest) s nv =
      (addRun s (effects d (good ++ [bad])), bad.version,
        some (.stepFailed d bad.version cause)) := by
  induction good generalizing s nv with
  | nil => simp [runSteps, hbad, logEffect, addRun, effects]
  | cons m g ih =>
    have hm : env.fails m.version d = none := hgood m (List.mem_cons_self m g)
    have hg : ∀ x ∈ g, env.fails x.version d = none :=
      fun x hx => hgood x (List.mem_cons_of_mem m hx)
    rw [List.cons_append, runSteps, hm, ih _ _ hg]
    simp [logEffect, addRun, effects]

theorem runSteps_not_notFound (env : Env) (d : Dir) (l : List Migration) (s : DBState)
    (nv w : Int) : (runSteps env d l s nv).2.2 ≠ some (.notFound w) := by
  induction l generalizing s nv with
  | nil => simp [runSteps]
  | cons m rest ih =>
    rw [runSteps]
    cases h : env.fails m.version d with
    | none => exact ih _ _
    | some c => simp

theorem runTx_not_notFound (env : Env) (s : DBState) (nv0 : Int)
    (fn : DBState → Int → DBState × Int × Option MigErr) (w : Int) :
    (runTx env s nv0 fn).2.2 ≠ some (.notFound w) := by
  rw [runTx]
  split
  · simp
  · cases h : (fn s nv0).2.2 with
    | none => simp [h]; split <;> simp
    | some e => simp [h]; split <;> simp

theorem upTo_not_notFound (env : Env) (migs : List Migration) (tx : Bool)
    (oldVersion target : Int) (s : DBState) (w : Int) :
    (upTo env migs tx oldVersion target s).2.2 ≠ some (.notFound w) := by
  rw [upTo]
  split
  · simp
  · split
    · exact runTx_not_notFound _ _ _ _ _
    · exact runSteps_not_notFound _ _ _ _ _ _

theorem downTo_not_notFound (env : Env) (migs : List Migration) (tx : Bool)
    (oldVersion target : Int) (s : DBState) (w : Int) :
    (downTo env migs tx oldVersion target s).2.2 ≠ some (.notFound w) := by
  rw [downTo]
  split
  · simp
  · split
    · exact runTx_not_notFound _ _ _ _ _
    · exact runSteps_not_notFound _ _ _ _ _ _

theorem runTx_fn_fails (env : Env) (s : DBState) (nv0 : Int)
    (fn : DBState → Int → DBState × Int × Option MigErr)
    (hb : env.beginFails = false) (hr : env.rollbackFails = false)
    (s' : DBState) (nv : Int) (e : MigErr) (hfn : fn s nv0 = (s', nv, some e)) :
    runTx env s nv0 fn = (s, nv, some (.txRolledBack e)) := by
  simp [runTx, hb, hfn, hr]

theorem runTx_rollback_fails (env : Env) (s : DBState) (nv0 : Int)
    (fn : DBState → Int → DBState × Int × Option MigErr)
    (hb : env.beginFails = false) (hr : env.rollbackFails = true)
    (s' : DBState) (nv : Int) (e : MigErr) (hfn : fn s nv0 = (s', nv, some e)) :
    runTx env s nv0 fn = (s, nv, some .rollbackFailed) := by
  simp [runTx, hb, hfn, hr]

theorem runTx_commits (env : Env) (s : DBState) (nv0 : Int)
    (fn : DBState → Int → DBState × Int × Option MigErr)
    (hb : env.beginFails = false) (hc : env.commitFails = false)
    (s' : DBState) (nv : Int) (hfn : fn s nv0 = (s', nv, none)) :
    runTx env s nv0 fn = (s', nv, none) := by
  simp [runTx, hb, hfn, hc]

theorem upTo_pending_nonempty (env : Env) (migs : List Migration) (tx : Bool)
    (oldV target : Int) (s : DBState) (h : pendingUp migs oldV target ≠ []) :
    upTo env migs tx oldV target s =
      if tx then runTx env s 0 (runSteps env .up (pendingUp migs oldV target))
      else runSteps env .up (pendingUp migs oldV target) s 0 := by
  rw [upTo, if_neg]
  simp [h]

theorem downTo_pending_nonempty (env : Env) (migs : List Migration) (tx : Bool)
    (oldV target : Int) (s : DBState) (h : pendingDown migs oldV target ≠ []) :
    downTo env migs tx oldV target s =
      (fun r => (r.1, r.2.1 - 1, r.2.2))
        (if tx then runTx env s 0 (runSteps env .down (pendingDown migs oldV target))
         else runSteps env .down (pendingDown migs oldV target) s 0) := by
  rw [downTo, if_neg]
  simp [h]

theorem addRun_table (s : DBState) (l : List (Int × Dir)) : (addRun s l).table = s.table :=
  rfl

theorem sortedMigrations_perm (migs : List Migration) :
    (sortedMigrations migs).Perm migs :=
  List.perm_insertionSort migLE migs

theorem sortedMigrations_sorted (migs : List Migration) :
    List.Sorted migLE (sortedMigrations migs) :=
  List.sorted_insertionSort migLE migs

theorem mem_sortedMigrations (migs : List Migration) (m : Migration) :
    m ∈ sortedMigrations migs ↔ m ∈ migs :=
  (sortedMigrations_perm migs).mem_iff

theorem currentVersion_empty (s : DBState) (h : s.table = []) : CurrentVersion s = 0 := by
  simp [CurrentVersion, h]

theorem currentVersion_latest (s : DBState) (r : VRecord) (hmem : r ∈ s.table)
    (hdom : ∀ x ∈ s.table, x ≠ r → x.updated_at < r.updated_at) :
    CurrentVersion s = r.version := by
  have hperm := List.perm_insertionSort recGE s.table
  have hsorted := List.sorted_insertionSort recGE s.table
  have hmem' : r ∈ List.insertionSort recGE s.table := hperm.mem_iff.mpr hmem
  cases hL : List.insertionSort recGE s.table with
  | nil => rw [hL] at hmem'; cases hmem'
  | cons hd tl =>
    have hhd : hd ∈ s.table := hperm.mem_iff.mp (hL ▸ List.mem_cons_self hd tl)
    have hrel : ∀ b ∈ tl, recGE hd b := List.rel_of_sorted_cons (hL ▸ hsorted)
    have heq : hd = r := by
      by_contra hne
      have hlt : hd.updated_at < r.updated_at := hdom hd hhd hne
      rw [hL] at hmem'
      rcases List.mem_cons.mp hmem' with h1 | h2
      · exact hne h1.symm
      · exact absurd (hrel r h2) (not_le.mpr hlt)
    rw [CurrentVersion, hL, heq]

theorem sorted_versions_range (migs : List Migration) (n : Nat)
    (hperm : (migs.map Migration.version).Perm ((List.range' 1 n).map (Nat.cast : Nat → Int))) :
    (sortedMigrations migs).map Migration.version =
      (List.range' 1 n).map (Nat.cast : Nat → Int) := by
  refine List.eq_of_perm_of_sorted (r := fun a b : Int => a ≤ b)
    (((sortedMigrations_perm migs).map Migration.version).trans hperm) ?_ ?_
  · exact List.Pairwise.map Migration.version (fun a b h => h) (sortedMigrations_sorted migs)
  · exact List.Pairwise.map Nat.cast (fun a b h => by exact_mod_cast Nat.le_of_lt h)
      (List.pairwise_lt_range' 1 n)

theorem pendingUp_all (migs : List Migration) (n : Nat)
    (hmax : (n : Int) ≤ maxInt64)
    (hperm : (migs.map Migration.version).Perm ((List.range' 1 n).map (Nat.cast : Nat → Int))) :
    pendingUp migs 0 maxInt64 = sortedMigrations migs := by
  rw [pendingUp, List.filter_eq_self]
  intro m hm
  have hv : m.version ∈ (sortedMigrations migs).map Migration.version :=
    List.mem_map_of_mem Migration.version hm
  rw [sorted_versions_range migs n hperm] at hv
  obtain ⟨k, hk, hkv⟩ := List.mem_map.mp hv
  obtain ⟨hk1, hk2⟩ := List.mem_range'_1.mp hk
  simp only [Bool.and_eq_true, decide_eq_true_eq]
  have hkn : (k : Int) ≤ (n : Int) := Int.ofNat_le.mpr (by omega)
  rw [← hkv]
  exact ⟨by omega, le_trans hkn hmax⟩

theorem effects_up_sorted (migs : List Migration) (n : Nat)
    (hperm : (migs.map Migration.version).Perm ((List.range' 1 n).map (Nat.cast : Nat → Int))) :
    effects .up (sortedMigrations migs) =
      (List.range' 1 n).map (fun (k : Nat) => ((k : Int), Dir.up)) := by
  have h : effects .up (sortedMigrations migs) =
      ((sortedMigrations migs).map Migration.version).map (fun v => (v, Dir.up)) := by
    rw [effects, List.map_map]
    rfl
  rw [h, sorted_versions_range migs n hperm, List.map_map]
  rfl

theorem lastVer_sorted (migs : List Migration) (n : Nat) (hn : 1 ≤ n)
    (hperm : (migs.map Migration.version).Perm ((List.range' 1 n).map (Nat.cast : Nat → Int))) :
    lastVer (sortedMigrations migs) 0 = (n : Int) := by
  rw [lastVer_map, sorted_versions_range migs n hperm]
  obtain ⟨m, rfl⟩ := Nat.exists_eq_add_of_le hn
  rw [add_comm 1 m, List.range'_concat, List.map_append]
  simp only [List.map_cons, List.map_nil, List.getLastD_concat]
  push_cast
  ring

theorem sortedMigrations_ne_nil (migs : List Migration) (n : Nat) (hn : 1 ≤ n)
    (hperm : (migs.map Migration.version).Perm ((List.range' 1 n).map (Nat.cast : Nat → Int))) :
    sortedMigrations migs ≠ [] := by
  intro h
  have := sorted_versions_range migs n hperm
  rw [h] at this
  have hlen : (0 : Nat) = ((List.range' 1 n).map (Nat.cast : Nat → Int)).length := by
    rw [← this]; rfl
  rw [List.length_map, List.length_range'] at hlen
  omega

/-! Concrete fixtures used by the scenario evaluations and witnesses. -/

/-- Oracle under which every action and every transaction primitive
succeeds. -/
def okEnv : Env := ⟨fun _ _ => none, false, false, false⟩

/-- Registered step with version 1. -/
def mig1 : Migration := ⟨1, ['1']⟩

/-- Registered step with version 2. -/
def mig2 : Migration := ⟨2, ['2']⟩

/-- Registered step with version 3. -/
def mig3 : Migration := ⟨3, ['3']⟩

/-- Registry holding steps 1, 2 and 3. -/
def threeMigs : List Migration := [mig1, mig2, mig3]

/-- Fresh database: empty version table, no actions run. -/
def freshDB : DBState := ⟨[], [], 0⟩

/-- Database whose version table holds a single record at version 3. -/
def stateAt3 : DBState := ⟨[⟨3, 0⟩], [], 1⟩

/-! Claim theorems. -/

/-- C1: with steps 1, 2, 3 registered and a fresh database, the call chain
Up(tx), Down(tx), ToVersion(1, tx) does NOT behave as claimed.  Up returns
(0, 3, success) and Down reports (3, 2, success), but Down persists a version
record carrying 3 (the version of the step it rolled down, not 2), so the
next call resolves current version 3 — not Down's reported new version 2.
ToVersion(1) therefore returns (3, 1, success) and invokes the down-actions
of steps 3 AND 2 (run log tail `(3, down), (2, down)` after Down's own
`(3, down)`), instead of the claimed (2, 1, success) with only step 2's
down-action. -/
theorem scenario_down_persists_stale_version :
    (Up okEnv threeMigs true freshDB).2 = (0, 3, none) ∧
    (Down okEnv threeMigs true (Up okEnv threeMigs true freshDB).1).2 = (3, 2, none) ∧
    (Down okEnv threeMigs true (Up okEnv threeMigs true freshDB).1).1.table =
      [⟨3, 0⟩, ⟨3, 1⟩] ∧
    CurrentVersion (Down okEnv threeMigs true (Up okEnv threeMigs true freshDB).1).1 = 3 ∧
    (ToVersion okEnv threeMigs true 1
        (Down okEnv threeMigs true (Up okEnv threeMigs true freshDB).1).1).2 =
      (3, 1, none) ∧
    (ToVersion okEnv threeMigs true 1
        (Down okEnv threeMigs true (Up okEnv threeMigs true freshDB).1).1).1.run =
      [(1, .up), (2, .up), (3, .up), (3, .down), (3, .down), (2, .down)] := by
  decide

/-- C5: evaluation of `Register` at each registration-time failure.  Nil
action handles, a negative parsed version, a duplicate version (the error
naming the previously registered file), a name without a parseable
`NUMBER_SEPARATOR` part and a non-`.go` extension all panic as claimed — but
version 0 does NOT: the guard is `v < 0`, so a file named `0000_foo.go`
registers a version-0 step without panicking, contradicting the claim, the
code's own message "must be bigger than 0" and the repository's
TestRegister_InvalidVersion. -/
theorem register_version_zero_accepted :
    Register [] true false ['1', '_', 'a', '.', 'g', 'o'] = .error .nilMigration ∧
    Register [] false false ['/', '0', '0', '0', '0', '_', 'f', 'o', 'o', '.', 'g', 'o'] =
      .ok [⟨0, ['0', '0', '0', '0', '_', 'f', 'o', 'o', '.', 'g', 'o']⟩] ∧
    Register [] false false ['/', '-', '1', '_', 'f', 'o', 'o', '.', 'g', 'o'] =
      .error (.invalidVersion (-1) ['-', '1', '_', 'f', 'o', 'o', '.', 'g', 'o']) ∧
    Register [⟨1, ['0', '1', '_', 'f', 'o', 'o', '.', 'g', 'o']⟩] false false
        ['/', '1', '_', 'b', 'a', 'r', '.', 'g', 'o'] =
      .error (.duplicate 1 ['0', '1', '_', 'f', 'o', 'o', '.', 'g', 'o']) ∧
    Register [] false false ['/', 'f', 'o', 'o', '.', 'g', 'o'] =
      .error (.badName ['f', 'o', 'o', '.', 'g', 'o']) ∧
    Register [] false false ['/', '1', '_', 'f', 'o', 'o', '.', 's', 'q', 'l'] =
      .error (.notGoFile ['1', '_', 'f', 'o', 'o', '.', 's', 'q', 'l']) :=
  ⟨rfl, rfl, rfl, rfl, rfl, rfl⟩

/-- C6: CurrentVersion returns 0 on an empty version table, and for any
table containing a record whose timestamp strictly dominates every other
record's, it returns that record's version — selection is by latest
timestamp, not by numerically largest stored version. -/
theorem currentVersion_latest_by_time :
    (∀ s : DBState, s.table = [] → CurrentVersion s = 0) ∧
    (∀ (s : DBState) (r : VRecord), r ∈ s.table →
      (∀ x ∈ s.table, x ≠ r → x.updated_at < r.updated_at) →
      CurrentVersion s = r.version) :=
  ⟨currentVersion_empty, currentVersion_latest⟩

/-- C6 witness: on a table storing version 3 at time 5 and version 2 at
time 9, CurrentVersion returns 2 (the latest-applied record), not the
numerically largest version 3. -/
theorem currentVersion_latest_by_time_witness :
    (⟨2, 9⟩ : VRecord) ∈ (⟨[⟨3, 5⟩, ⟨2, 9⟩], [], 10⟩ : DBState).table ∧
    CurrentVersion ⟨[⟨3, 5⟩, ⟨2, 9⟩], [], 10⟩ = 2 :=
  ⟨by decide, currentVersion_latest_by_time.2 ⟨[⟨3, 5⟩, ⟨2, 9⟩], [], 10⟩ ⟨2, 9⟩
    (by decide) (by decide)⟩

/-- C7: whenever the computed pending set of a directional application is
empty the operation returns the NoWork error with no action invoked and no
version record written (the state is returned untouched); this covers Up
when no registered version exceeds the current one and Down when no step
carries exactly the current version; and NoWork is a different error value
from every NotFound error. -/
theorem empty_pending_noWork :
    (∀ (env : Env) (migs : List Migration) (tx : Bool) (oldV target : Int) (s : DBState),
      pendingUp migs oldV target = [] →
      upTo env migs tx oldV target s = (s, 0, some .noWork)) ∧
    (∀ (env : Env) (migs : List Migration) (tx : Bool) (oldV target : Int) (s : DBState),
      pendingDown migs oldV target = [] →
      downTo env migs tx oldV target s = (s, 0, some .noWork)) ∧
    (∀ (env : Env) (migs : List Migration) (tx : Bool) (s : DBState),
      (∀ m ∈ migs, m.version ≤ CurrentVersion s) →
      Up env migs tx s = (s, CurrentVersion s, 0, some .noWork)) ∧
    (∀ (env : Env) (migs : List Migration) (tx : Bool) (s : DBState),
      (∀ m ∈ migs, m.version ≠ CurrentVersion s) →
      Down env migs tx s = (s, CurrentVersion s, 0, some .noWork)) ∧
    (∀ v : Int, MigErr.noWork ≠ MigErr.notFound v) := by
  refine ⟨fun env migs tx oldV target s h => ?_,
          fun env migs tx oldV target s h => ?_,
          fun env migs tx s h => ?_,
          fun env migs tx s h => ?_,
          fun v h => by cases h⟩
  · simp [upTo, h]
  · simp [downTo, h]
  · have hp : pendingUp migs (CurrentVersion s) maxInt64 = [] := by
      rw [pendingUp, List.filter_eq_nil_iff]
      intro m hm
      have := h m ((mem_sortedMigrations migs m).mp hm)
      simp [not_lt.mpr this]
    simp [Up, upTo, hp]
  · have hp : pendingDown migs (CurrentVersion s) (CurrentVersion s - 1) = [] := by
      rw [pendingDown, List.reverse_eq_nil_iff, List.filter_eq_nil_iff]
      intro m hm
      have := h m ((mem_sortedMigrations migs m).mp hm)
      intro hc
      simp only [Bool.and_eq_true, decide_eq_true_eq] at hc
      omega
    simp [Down, downTo, hp]

/-- C7 witness: with steps 1..3 registered and the database at version 3,
Up finds nothing pending and fails with NoWork, touching neither the run log
nor the version table; and NoWork differs from NotFound. -/
theorem empty_pending_noWork_witness :
    (∀ m ∈ threeMigs, m.version ≤ CurrentVersion stateAt3) ∧
    Up okEnv threeMigs true stateAt3 = (stateAt3, 3, 0, some .noWork) ∧
    MigErr.noWork ≠ MigErr.notFound 3 :=
  ⟨by decide, empty_pending_noWork.2.2.1 okEnv threeMigs true stateAt3 (by decide),
   empty_pending_noWork.2.2.2.2 3⟩

/-- C2: for every registry whose versions are exactly 1..n (n ≥ 1, inside
the int64 range), with every up action succeeding and the transaction
primitives healthy, Up from a fresh database (current version 0) returns
(0, n, success), invokes each step's up action exactly once in ascending
version order — the run log gains precisely (1,up),...,(n,up) and nothing
else — and persists a single version record carrying n. -/
theorem up_from_zero_applies_all (env : Env) (migs : List Migration) (tx : Bool)
    (s : DBState) (n : Nat) (hn : 1 ≤ n) (hmax : (n : Int) ≤ maxInt64)
    (hperm : (migs.map Migration.version).Perm
      ((List.range' 1 n).map (Nat.cast : Nat → Int)))
    (hok : ∀ m ∈ migs, env.fails m.version Dir.up = none)
    (hb : env.beginFails = false) (hc : env.commitFails = false)
    (htable : s.table = []) :
    Up env migs tx s =
      (⟨[⟨(n : Int), s.clock⟩],
        s.run ++ (List.range' 1 n).map (fun (k : Nat) => ((k : Int), Dir.up)),
        s.clock + 1⟩, 0, (n : Int), none) := by
  have hcv : CurrentVersion s = 0 := currentVersion_empty s htable
  have hpend : pendingUp migs 0 maxInt64 = sortedMigrations migs :=
    pendingUp_all migs n hmax hperm
  have hne : pendingUp migs 0 maxInt64 ≠ [] := by
    rw [hpend]
    exact sortedMigrations_ne_nil migs n hn hperm
  have hok' : ∀ m ∈ sortedMigrations migs, env.fails m.version Dir.up = none :=
    fun m hm => hok m ((mem_sortedMigrations migs m).mp hm)
  have hrun : runSteps env .up (pendingUp migs 0 maxInt64) s 0 =
      (SetVersion (addRun s (effects .up (sortedMigrations migs)))
        (lastVer (sortedMigrations migs) 0), lastVer (sortedMigrations migs) 0, none) := by
    rw [hpend]
    exact runSteps_ok env .up (sortedMigrations migs) s 0 hok'
  have hfinal : SetVersion (addRun s (effects .up (sortedMigrations migs))) (n : Int) =
      ⟨[⟨(n : Int), s.clock⟩],
        s.run ++ (List.range' 1 n).map (fun (k : Nat) => ((k : Int), Dir.up)),
        s.clock + 1⟩ := by
    rw [effects_up_sorted migs n hperm]
    simp [SetVersion, addRun, htable]
  simp only [Up, hcv]
  rw [upTo_pending_nonempty env migs tx 0 maxInt64 s hne]
  cases tx with
  | false =>
    rw [if_neg (by simp), hrun]
    simp only [lastVer_sorted migs n hn hperm, hfinal]
  | true =>
    rw [if_pos rfl, runTx_commits env s 0 _ hb hc _ _ hrun]
    simp only [lastVer_sorted migs n hn hperm, hfinal]

/-- C2 witness: the registry [2, 3, 1] (deliberately unsorted) carries
exactly versions 1..3; Up on a fresh database under a transaction returns
(0, 3, success), runs the up actions in the order 1, 2, 3 and records
version 3. -/
theorem up_from_zero_applies_all_witness :
    1 ≤ 3 ∧ ((3 : Nat) : Int) ≤ maxInt64 ∧
    (([mig2, mig3, mig1].map Migration.version).Perm
      ((List.range' 1 3).map (Nat.cast : Nat → Int))) ∧
    (∀ m ∈ [mig2, mig3, mig1], okEnv.fails m.version Dir.up = none) ∧
    freshDB.table = [] ∧
    Up okEnv [mig2, mig3, mig1] true freshDB =
      (⟨[⟨3, 0⟩], [(1, .up), (2, .up), (3, .up)], 1⟩, 0, 3, none) :=
  ⟨by decide, by decide, by decide, by decide, rfl,
   up_from_zero_applies_all okEnv [mig2, mig3, mig1] true freshDB 3 (by decide) (by decide)
     (by decide) (by decide) rfl rfl rfl⟩

/-- C3: in transactional mode, when the pending set splits as
`good ++ bad :: rest` with every step of `good` succeeding and `bad`'s
action failing, both directional applications return an error and the
database state is exactly the pre-call state: no version record is appended
and no effect of any step of the batch — including the already-succeeded
`good` prefix — remains observable. -/
theorem tx_step_failure_full_rollback :
    (∀ (env : Env) (migs : List Migration) (oldV target : Int) (s : DBState)
      (good : List Migration) (bad : Migration) (rest : List Migration) (cause : String),
      env.beginFails = false → env.rollbackFails = false →
      pendingUp migs oldV target = good ++ bad :: rest →
      (∀ m ∈ good, env.fails m.version Dir.up = none) →
      env.fails bad.version Dir.up = some cause →
      upTo env migs true oldV target s =
        (s, bad.version, some (.txRolledBack (.stepFailed .up bad.version cause)))) ∧
    (∀ (env : Env) (migs : List Migration) (oldV target : Int) (s : DBState)
      (good : List Migration) (bad : Migration) (rest : List Migration) (cause : String),
      env.beginFails = false → env.rollbackFails = false →
      pendingDown migs oldV target = good ++ bad :: rest →
      (∀ m ∈ good, env.fails m.version Dir.down = none) →
      env.fails bad.version Dir.down = some cause →
      downTo env migs true oldV target s =
        (s, bad.version - 1, some (.txRolledBack (.stepFailed .down bad.version cause)))) := by
  constructor
  · intro env migs oldV target s good bad rest cause hb hr hsplit hgood hbad
    rw [upTo_pending_nonempty env migs true oldV target s (by simp [hsplit]), if_pos rfl,
      runTx_fn_fails env s 0 _ hb hr _ _ _ (by rw [hsplit]; exact runSteps_fail env .up good bad rest cause s 0 hgood hbad)]
  · intro env migs oldV target s good bad rest cause hb hr hsplit hgood hbad
    rw [downTo_pending_nonempty env migs true oldV target s (by simp [hsplit]), if_pos rfl,
      runTx_fn_fails env s 0 _ hb hr _ _ _ (by rw [hsplit]; exact runSteps_fail env .down good bad rest cause s 0 hgood hbad)]

/-- C3 witness: steps 1 and 2 pending from version 0 with step 2's up action
failing under a transaction: the state comes back untouched and the error
wraps the step failure. -/
theorem tx_step_failure_full_rollback_witness :
    pendingUp [mig1, mig2] 0 9 = [mig1] ++ mig2 :: [] ∧
    upTo ⟨fun v _ => if v = 2 then some "boom" else none, false, false, false⟩
        [mig1, mig2] true 0 9 freshDB =
      (freshDB, 2, some (.txRolledBack (.stepFailed .up 2 "boom"))) :=
  ⟨by decide,
   tx_step_failure_full_rollback.1
     ⟨fun v _ => if v = 2 then some "boom" else none, false, false, false⟩
     [mig1, mig2] 0 9 freshDB [mig1] mig2 [] "boom" rfl rfl (by decide)
     (by decide) (by decide)⟩

/-- C4: in non-transactional mode, when the pending set splits as
`good ++ bad :: rest` with `good` succeeding and `bad` failing, the final
state keeps the effects of the already-applied steps (plus the failing
step's own partial trace) appended to the run log, the version table is
untouched (`addRun` never changes it), and the returned error is the step
error naming `bad`'s version and wrapping the underlying cause. -/
theorem nontx_step_failure_keeps_prior_steps :
    (∀ (env : Env) (migs : List Migration) (oldV target : Int) (s : DBState)
      (good : List Migration) (bad : Migration) (rest : List Migration) (cause : String),
      pendingUp migs oldV target = good ++ bad :: rest →
      (∀ m ∈ good, env.fails m.version Dir.up = none) →
      env.fails bad.version Dir.up = some cause →
      upTo env migs false oldV target s =
        (addRun s (effects .up (good ++ [bad])), bad.version,
          some (.stepFailed .up bad.version cause))) ∧
    (∀ (env : Env) (migs : List Migration) (oldV target : Int) (s : DBState)
      (good : List Migration) (bad : Migration) (rest : List Migration) (cause : String),
      pendingDown migs oldV target = good ++ bad :: rest →
      (∀ m ∈ good, env.fails m.version Dir.down = none) →
      env.fails bad.version Dir.down = some cause →
      downTo env migs false oldV target s =
        (addRun s (effects .down (good ++ [bad])), bad.version - 1,
          some (.stepFailed .down bad.version cause))) ∧
    (∀ (s : DBState) (l : List (Int × Dir)), (addRun s l).table = s.table) := by
  refine ⟨?_, ?_, fun s l => rfl⟩
  · intro env migs oldV target s good bad rest cause hsplit hgood hbad
    rw [upTo_pending_nonempty env migs false oldV target s (by simp [hsplit]), if_neg (by simp),
      hsplit, runSteps_fail env .up good bad rest cause s 0 hgood hbad]
  · intro env migs oldV target s good bad rest cause hsplit hgood hbad
    rw [downTo_pending_nonempty env migs false oldV target s (by simp [hsplit]), if_neg (by simp),
      hsplit, runSteps_fail env .down good bad rest cause s 0 hgood hbad]

/-- C4 witness: steps 1 and 2 pending from version 0 without a transaction,
step 2 failing: step 1's effect (and step 2's partial trace) persist in the
run log, the version table stays empty, and the error names version 2 with
its cause. -/
theorem nontx_step_failure_keeps_prior_steps_witness :
    pendingUp [mig1, mig2] 0 9 = [mig1] ++ mig2 :: [] ∧
    upTo ⟨fun v _ => if v = 2 then some "boom" else none, false, false, false⟩
        [mig1, mig2] false 0 9 freshDB =
      (⟨[], [(1, .up), (2, .up)], 0⟩, 2, some (.stepFailed .up 2 "boom")) :=
  ⟨by decide,
   nontx_step_failure_keeps_prior_steps.1
     ⟨fun v _ => if v = 2 then some "boom" else none, false, false, false⟩
     [mig1, mig2] 0 9 freshDB [mig1] mig2 [] "boom" (by decide) (by decide) (by decide)⟩

/-- C9: in transactional mode, when a step fails and the rollback also
fails, the returned error is the bare rollback failure, which replaces the
step error entirely: `rollbackFailed` carries no payload and is a different
value from every step error and from every rolled-back-wrapping error, so
the original StepError is no part of the result. -/
theorem rollback_failure_supersedes_step_error :
    (∀ (env : Env) (migs : List Migration) (oldV target : Int) (s : DBState)
      (good : List Migration) (bad : Migration) (rest : List Migration) (cause : String),
      env.beginFails = false → env.rollbackFails = true →
      pendingUp migs oldV target = good ++ bad :: rest →
      (∀ m ∈ good, env.fails m.version Dir.up = none) →
      env.fails bad.version Dir.up = some cause →
      upTo env migs true oldV target s = (s, bad.version, some .rollbackFailed)) ∧
    (∀ (env : Env) (migs : List Migration) (oldV target : Int) (s : DBState)
      (good : List Migration) (bad : Migration) (rest : List Migration) (cause : String),
      env.beginFails = false → env.rollbackFails = true →
      pendingDown migs oldV target = good ++ bad :: rest →
      (∀ m ∈ good, env.fails m.version Dir.down = none) →
      env.fails bad.version Dir.down = some cause →
      downTo env migs true oldV target s = (s, bad.version - 1, some .rollbackFailed)) ∧
    (∀ (d : Dir) (v : Int) (c : String), MigErr.rollbackFailed ≠ MigErr.stepFailed d v c) ∧
    (∀ e : MigErr, MigErr.rollbackFailed ≠ MigErr.txRolledBack e) := by
  refine ⟨?_, ?_, ?_, ?_⟩
  · intro env migs oldV target s good bad rest cause hb hr hsplit hgood hbad
    rw [upTo_pending_nonempty env migs true oldV target s (by simp [hsplit]), if_pos rfl,
      runTx_rollback_fails env s 0 _ hb hr _ _ _ (by rw [hsplit]; exact runSteps_fail env .up good bad rest cause s 0 hgood hbad)]
  · intro env migs oldV target s good bad rest cause hb hr hsplit hgood hbad
    rw [downTo_pending_nonempty env migs true oldV target s (by simp [hsplit]), if_pos rfl,
      runTx_rollback_fails env s 0 _ hb hr _ _ _ (by rw [hsplit]; exact runSteps_fail env .down good bad rest cause s 0 hgood hbad)]
  · intro d v c h
    cases h
  · intro e h
    cases h

/-- C9 witness: step 2's up action fails inside a transaction whose rollback
also fails: the result error is exactly `rollbackFailed`, with the step
error gone. -/
theorem rollback_failure_supersedes_step_error_witness :
    pendingUp [mig1, mig2] 0 9 = [mig1] ++ mig2 :: [] ∧
    upTo ⟨fun v _ => if v = 2 then some "boom" else none, false, true, false⟩
        [mig1, mig2] true 0 9 freshDB = (freshDB, 2, some .rollbackFailed) ∧
    MigErr.rollbackFailed ≠ MigErr.stepFailed .up 2 "boom" :=
  ⟨by decide,
   rollback_failure_supersedes_step_error.1
     ⟨fun v _ => if v = 2 then some "boom" else none, false, true, false⟩
     [mig1, mig2] 0 9 freshDB [mig1] mig2 [] "boom" rfl rfl (by decide)
     (by decide) (by decide),
   rollback_failure_supersedes_step_error.2.2.1 .up 2 "boom"⟩

/-- C8 counterexample: steps 1 and 2 registered, step 2's up action fails.
The claim predicts the `newVersion` returned alongside the error is 1 (the
last step that succeeded); the code returns 2, the failing step's version,
because the frontier variable is assigned before the action runs. -/
theorem fail_newVersion_not_last_succeeded :
    (Up ⟨fun v _ => if v = 2 then some "boom" else none, false, false, false⟩
        [mig1, mig2] false freshDB).2.2.1 = 2 ∧
    decide ((Up ⟨fun v _ => if v = 2 then some "boom" else none, false, false, false⟩
        [mig1, mig2] false freshDB).2.2.1 = 1) = false := by
  exact ⟨by decide, by decide⟩

/-- C8 amended: when the k-th pending step fails, the `newVersion` returned
alongside the error is the failing step's own version for an ascending run,
and the failing step's version minus one for a descending run — the frontier
is advanced before each action is invoked, so it never points at step
k-1. -/
theorem fail_newVersion_is_failing_step :
    (∀ (env : Env) (migs : List Migration) (tx : Bool) (oldV target : Int) (s : DBState)
      (good : List Migration) (bad : Migration) (rest : List Migration) (cause : String),
      env.beginFails = false →
      pendingUp migs oldV target = good ++ bad :: rest →
      (∀ m ∈ good, env.fails m.version Dir.up = none) →
      env.fails bad.version Dir.up = some cause →
      (upTo env migs tx oldV target s).2.1 = bad.version) ∧
    (∀ (env : Env) (migs : List Migration) (tx : Bool) (oldV target : Int) (s : DBState)
      (good : List Migration) (bad : Migration) (rest : List Migration) (cause : String),
      env.beginFails = false →
      pendingDown migs oldV target = good ++ bad :: rest →
      (∀ m ∈ good, env.fails m.version Dir.down = none) →
      env.fails bad.version Dir.down = some cause →
      (downTo env migs tx oldV target s).2.1 = bad.version - 1) := by
  constructor
  · intro env migs tx oldV target s good bad rest cause hb hsplit hgood hbad
    rw [upTo_pending_nonempty env migs tx oldV target s (by simp [hsplit])]
    have hrun : runSteps env .up (pendingUp migs oldV target) s 0 =
        (addRun s (effects .up (good ++ [bad])), bad.version,
          some (.stepFailed .up bad.version cause)) := by
      rw [hsplit]; exact runSteps_fail env .up good bad rest cause s 0 hgood hbad
    cases tx with
    | false => simp [hrun]
    | true =>
      rw [if_pos rfl, runTx, if_neg (by simp [hb]), hrun]
      cases hrb : env.rollbackFails <;> simp [hrb]
  · intro env migs tx oldV target s good bad rest cause hb hsplit hgood hbad
    rw [downTo_pending_nonempty env migs tx oldV target s (by simp [hsplit])]
    have hrun : runSteps env .down (pendingDown migs oldV target) s 0 =
        (addRun s (effects .down (good ++ [bad])), bad.version,
          some (.stepFailed .down bad.version cause)) := by
      rw [hsplit]; exact runSteps_fail env .down good bad rest cause s 0 hgood hbad
    cases tx with
    | false => simp [hrun]
    | true =>
      rw [if_pos rfl, runTx, if_neg (by simp [hb]), hrun]
      cases hrb : env.rollbackFails <;> simp [hrb]

/-- C8 amended witness: with step 2 failing on the way up from version 0,
the reported newVersion is 2; with step 2 failing on the way down from
version 2, the reported newVersion is 1 = 2 - 1. -/
theorem fail_newVersion_is_failing_step_witness :
    pendingUp [mig1, mig2] 0 9 = [mig1] ++ mig2 :: [] ∧
    (upTo ⟨fun v _ => if v = 2 then some "boom" else none, false, false, false⟩
      [mig1, mig2] false 0 9 freshDB).2.1 = 2 ∧
    pendingDown [mig1, mig2] 2 0 = [] ++ mig2 :: [mig1] ∧
    (downTo ⟨fun v _ => if v = 2 then some "boom" else none, false, false, false⟩
      [mig1, mig2] true 2 0 freshDB).2.1 = 2 - 1 :=
  ⟨by decide,
   fail_newVersion_is_failing_step.1
     ⟨fun v _ => if v = 2 then some "boom" else none, false, false, false⟩
     [mig1, mig2] false 0 9 freshDB [mig1] mig2 [] "boom" rfl (by decide)
     (by decide) (by decide),
   by decide,
   fail_newVersion_is_failing_step.2
     ⟨fun v _ => if v = 2 then some "boom" else none, false, false, false⟩
     [mig1, mig2] true 2 0 freshDB [] mig2 [mig1] "boom" rfl (by decide)
     (by decide) (by decide)⟩

/-- C10: if the resolved current version equals the target `v`, ToVersion
returns `(v, v, success)` untouched — zero actions, no version record — with
no requirement that any migration carry version `v`; and the NotFound error
is produced exactly when `v` differs from the current version and no
registered step has version `v`. -/
theorem toVersion_noop_and_notFound :
    (∀ (env : Env) (migs : List Migration) (tx : Bool) (v : Int) (s : DBState),
      CurrentVersion s = v → ToVersion env migs tx v s = (s, v, v, none)) ∧
    (∀ (env : Env) (migs : List Migration) (tx : Bool) (v : Int) (s : DBState),
      (ToVersion env migs tx v s).2.2.2 = some (.notFound v) ↔
        (CurrentVersion s ≠ v ∧ ∀ m ∈ migs, m.version ≠ v)) := by
  constructor
  · intro env migs tx v s h
    simp [ToVersion, h]
  · intro env migs tx v s
    rw [ToVersion]
    by_cases hold : CurrentVersion s = v
    · simp [hold]
    · simp only [if_neg hold]
      by_cases hany : (migs.any fun m => decide (m.version = v)) = true
      · simp only [hany, Bool.not_true, Bool.false_eq_true, if_false]
        have hex : ∃ m ∈ migs, m.version = v := by
          simpa using hany
        constructor
        · intro hc
          exfalso
          split at hc
          · exact upTo_not_notFound env migs tx (CurrentVersion s) v s v hc
          · exact downTo_not_notFound env migs tx (CurrentVersion s) v s v hc
        · rintro ⟨-, hall⟩
          obtain ⟨m, hm, hv⟩ := hex
          exact absurd hv (hall m hm)
      · simp only [Bool.not_eq_true] at hany
        have hall : ∀ m ∈ migs, m.version ≠ v := by
          intro m hm
          have := List.any_eq_false.mp hany m hm
          simpa using this
        simp only [hany, Bool.not_false, if_true]
        simpa [hold] using hall

/-- C10 witness: with the registry empty and the database at version 5,
ToVersion(5) is a pure no-op success even though version 5 is unregistered,
and on a fresh database ToVersion(7) with no step 7 yields NotFound. -/
theorem toVersion_noop_and_notFound_witness :
    CurrentVersion ⟨[⟨5, 0⟩], [], 1⟩ = 5 ∧
    ToVersion okEnv [] true 5 ⟨[⟨5, 0⟩], [], 1⟩ = (⟨[⟨5, 0⟩], [], 1⟩, 5, 5, none) ∧
    ((ToVersion okEnv [] true 7 freshDB).2.2.2 = some (.notFound 7) ↔
      (CurrentVersion freshDB ≠ 7 ∧ ∀ m ∈ ([] : List Migration), m.version ≠ 7)) :=
  ⟨by decide, toVersion_noop_and_notFound.1 okEnv [] true 5 ⟨[⟨5, 0⟩], [], 1⟩ (by decide),
   toVersion_noop_and_notFound.2 okEnv [] true 7 freshDB⟩

end Mig
